import Mathlib

/-!
Shallow embedding of the core of `src/src/main.c` (ASCII-OS, a single-file
UEFI text shell) and proofs about it.

Modelling conventions:
* `CHAR16` code units are modelled as `Nat` character codes.
* A buffer row (`CHAR16 [MAX_LINE_LENGTH]`, NUL-terminated) is modelled by its
  content, the list of codes strictly before the first NUL.  Writing `ch` at
  column `col` followed by a terminator at `col + 1` therefore maps the row
  content `p` to `p.take col ++ [ch]`, and writing a terminator at `col` maps
  it to `p.take col`.  The data model keeps the invariant
  `column_index ≤ length(line[line_index])`, under which this is exactly the
  image of the C writes on the abstraction.
* `INTN` arithmetic is modelled on `Int`; C `/` on signed integers truncates
  toward zero, which is `Int.div`.
* Fallible UEFI calls are modelled by an explicit environment `FsEnv` whose
  boolean fields tell which firmware call succeeds, mirroring the successive
  early-return error paths of `save_to_file` / `load_from_file`.
-/

namespace AsciiOS

/-- `#define MAX_LINES 100` -/
def MAX_LINES : Nat := 100

/-- `#define MAX_LINE_LENGTH 256` -/
def MAX_LINE_LENGTH : Nat := 256

/-- UEFI `SCAN_ESC` (0x17). -/
def SCAN_ESC : Nat := 23

/-- UEFI `SCAN_F2` (0x0C). -/
def SCAN_F2 : Nat := 12

/-- UEFI `SCAN_F3` (0x0D). -/
def SCAN_F3 : Nat := 13

/-- `CHAR_BACKSPACE` (0x08). -/
def CHAR_BACKSPACE : Nat := 8

/-- `CHAR_CARRIAGE_RETURN` (0x0D). -/
def CHAR_CARRIAGE_RETURN : Nat := 13

/-! ## Expression evaluator (`evaluate_expression`, main.c lines 44-74) -/

/-- One application of the pending operator, mirroring the two identical
`if (op == ...)` chains of `evaluate_expression`: `+`, `-`, `*` apply
unconditionally, `/` applies only when the operand is nonzero (C signed
division truncates toward zero, i.e. `Int.div`). -/
def applyPending (op : Nat) (result cur : Int) : Int :=
  if op = 43 then result + cur
  else if op = 45 then result - cur
  else if op = 42 then result * cur
  else if op = 47 ∧ cur ≠ 0 then Int.tdiv result cur
  else result

/-- The `while (expr[i] != 0)` loop of `evaluate_expression`, carrying
`result`, `current_num` and the pending operator `op`; at end of input the
final pending operation is applied. -/
def evalAux : List Nat → Int → Int → Nat → Int
  | [], result, cur, op => applyPending op result cur
  | c :: rest, result, cur, op =>
    if 48 ≤ c ∧ c ≤ 57 then
      evalAux rest result (cur * 10 + ((c : Int) - 48)) op
    else if c = 43 ∨ c = 45 ∨ c = 42 ∨ c = 47 then
      evalAux rest (applyPending op result cur) 0 c
    else
      evalAux rest result cur op

/-- `evaluate_expression` on a list of character codes: `result = 0`,
`current_num = 0`, pending operator `'+'` (43). -/
def evaluate_expression (expr : List Nat) : Int :=
  evalAux expr 0 0 43

/-! ## Line-buffer editor state machine

The shared key-handling state used identically by `app_notepad`
(lines 351-368) and `app_editor` (lines 488-505): a bounded buffer of rows,
a logical line count, and a cursor. -/

/-- The editing state: `buf` models the `CHAR16 [MAX_LINES][MAX_LINE_LENGTH]`
array row by row (row content before the first NUL), `numLines` the
`*_lines` counter, `curLine`/`curCol` the cursor. -/
structure EdState where
  buf : List (List Nat)
  numLines : Nat
  curLine : Nat
  curCol : Nat
deriving DecidableEq

/-- Abstract key for the line-buffer handler: a typed character, Enter,
Backspace, or the function keys (which do not touch the buffer state). -/
inductive Key where
  | char (c : Nat)
  | enter
  | backspace
  | f2
  | f3
deriving DecidableEq

/-- One step of the line-buffer key handler, translated from the notepad /
editor dispatch branches:
* Backspace (`if (col > 0) { col--; buffer[line][col] = 0; }`);
* Enter (`buffer[line][col] = 0; line++; col = 0;` then clamp
  `line` to `MAX_LINES - 1` and extend the line count);
* printable character 32..126 (`if (col < MAX_LINE_LENGTH - 1)` store the
  character, advance the column, terminate the row, extend the line count);
anything else leaves the state unchanged. -/
def edStep (s : EdState) (k : Key) : EdState :=
  match k with
  | .backspace =>
    if 0 < s.curCol then
      { s with
        curCol := s.curCol - 1,
        buf := s.buf.set s.curLine ((s.buf.getD s.curLine []).take (s.curCol - 1)) }
    else s
  | .enter =>
    let buf1 := s.buf.set s.curLine ((s.buf.getD s.curLine []).take s.curCol)
    let nl := if s.curLine + 1 ≥ MAX_LINES then MAX_LINES - 1 else s.curLine + 1
    { buf := buf1
      numLines := if nl ≥ s.numLines then nl + 1 else s.numLines
      curLine := nl
      curCol := 0 }
  | .char c =>
    if 32 ≤ c ∧ c < 127 then
      if s.curCol < MAX_LINE_LENGTH - 1 then
        { buf := s.buf.set s.curLine ((s.buf.getD s.curLine []).take s.curCol ++ [c])
          numLines := if s.curLine ≥ s.numLines then s.curLine + 1 else s.numLines
          curLine := s.curLine
          curCol := s.curCol + 1 }
      else s
    else s
  | .f2 => s
  | .f3 => s

/-- Run a list of keys through the handler. -/
def runKeys (s : EdState) (ks : List Key) : EdState :=
  ks.foldl edStep s

/-- The fresh notepad state set up by `efi_main` (lines 597-601): every row
empty, `notepad_lines = 1`, cursor at `(0, 0)`. -/
def freshState : EdState :=
  ⟨List.replicate MAX_LINES [], 1, 0, 0⟩

/-- The key sequence that types the given groups of characters, with an
Enter press between consecutive groups. -/
def keysOfLines : List (List Nat) → List Key
  | [] => []
  | [g] => g.map Key.char
  | g :: gs => g.map Key.char ++ Key.enter :: keysOfLines gs

/-- Number of Enter presses in a key sequence. -/
def countEnters : List Key → Nat
  | [] => 0
  | .enter :: ks => countEnters ks + 1
  | _ :: ks => countEnters ks

/-! ## Persistence (`save_to_file` lines 177-232, `load_from_file` lines 235-309) -/

/-- The line-splitting loop of `load_from_file` (lines 287-305).  `acc` holds
the completed lines (the rows `0 .. line-1` already terminated), `cur` the
partial content of row `line`.  The `for` condition stops while `line <
MAX_LINES`; a CR or LF terminates the current row and advances only when it
is non-empty (`if (col > 0) line++`); other characters are stored only while
`col < MAX_LINE_LENGTH - 1`; a non-empty trailing fragment becomes a final
line. -/
def parseLines : List Nat → List (List Nat) → List Nat → List (List Nat)
  | [], acc, cur => if 0 < cur.length then acc ++ [cur] else acc
  | c :: rest, acc, cur =>
    if MAX_LINES ≤ acc.length then acc
    else if c = 13 ∨ c = 10 then
      if 0 < cur.length then parseLines rest (acc ++ [cur]) []
      else parseLines rest acc []
    else if cur.length < MAX_LINE_LENGTH - 1 then
      parseLines rest acc (cur ++ [c])
    else
      parseLines rest acc cur

/-- The lines `load_from_file` produces from a file whose content is the
given `CHAR16` sequence: at most `8192` bytes, i.e. `4096` code units, are
read (`file_size = 8192` at line 244), then split into lines. -/
def load_from_file_content (fileChars : List Nat) : List (List Nat) :=
  parseLines (fileChars.take 4096) [] []

/-- Outcome environment for the firmware calls made by the persistence
routines, one flag per successive early-return error path:
`LocateHandleBuffer` (with `handles_count > 0`), `HandleProtocol`,
`OpenVolume`, `root->Open`, `AllocatePool`, `file->Read`; `content` is the
`CHAR16` sequence the file holds when reading succeeds. -/
structure FsEnv where
  locate_ok : Bool
  handle_ok : Bool
  volume_ok : Bool
  open_ok : Bool
  alloc_ok : Bool
  read_ok : Bool
  content : List Nat
deriving DecidableEq

/-- The all-success environment for a file holding `content`. -/
def fsOk (content : List Nat) : FsEnv :=
  ⟨true, true, true, true, true, true, content⟩

/-- The `CHAR16` sequence `save_to_file` writes for the given buffer lines
(lines 217-226): each line's content followed by CR LF (the 4-byte write of
`L"\r\n"`). -/
def saveContent (lines : List (List Nat)) : List Nat :=
  lines.foldr (fun l acc => l ++ 13 :: 10 :: acc) []

/-- `save_to_file`: fails on the `LocateHandleBuffer` / `HandleProtocol` /
`OpenVolume` / `root->Open` error paths (the `file->Write` statuses are not
checked); on success the file receives `saveContent lines`.  Returns the
success flag and the written content. -/
def save_to_file (env : FsEnv) (lines : List (List Nat)) : Bool × List Nat :=
  if !env.locate_ok then (false, [])
  else if !env.handle_ok then (false, [])
  else if !env.volume_ok then (false, [])
  else if !env.open_ok then (false, [])
  else (true, saveContent lines)

/-- `load_from_file`: `*num_lines = 0` is executed first (line 246), so every
early-return error path leaves the caller's line count at 0.  Returns
(success flag, parsed lines, value stored through `num_lines`). -/
def load_from_file (env : FsEnv) : Bool × List (List Nat) × Nat :=
  if !env.locate_ok then (false, [], 0)
  else if !env.handle_ok then (false, [], 0)
  else if !env.volume_ok then (false, [], 0)
  else if !env.open_ok then (false, [], 0)
  else if !env.alloc_ok then (false, [], 0)
  else if !env.read_ok then (false, [], 0)
  else
    let ls := load_from_file_content env.content
    (true, ls, ls.length)

/-! ## Application layer (`app_notepad` lines 312-370, `app_editor`
lines 433-507) -/

/-- A raw UEFI key event: scan code and unicode character, as in
`EFI_INPUT_KEY`. -/
structure KeyEvent where
  scan : Nat
  unicode : Nat
deriving DecidableEq

/-- Kind of status message shown after an F2 save. -/
inductive MsgKind where
  | saveOk
  | saveFailed
deriving DecidableEq

/-- A single-line status message at a fixed screen position `(col, row)`. -/
structure Status where
  col : Nat
  row : Nat
  kind : MsgKind
deriving DecidableEq

/-- The editor's F3 branch (lines 483-487): call `load_from_file` on
`\sample.txt` — its status is not checked — then reset the cursor to
`(0, 0)`.  On success rows `0 .. count-1` hold the parsed lines (later rows
keep stale storage); on failure the buffer rows are untouched but the
out-parameter has set the line count to 0. -/
def editorReload (env : FsEnv) (s : EdState) : EdState :=
  let r := load_from_file env
  if r.1 then
    { buf := r.2.1 ++ s.buf.drop r.2.1.length
      numLines := r.2.2
      curLine := 0
      curCol := 0 }
  else
    { s with numLines := r.2.2, curLine := 0, curCol := 0 }

/-- One iteration of the notepad key dispatch (lines 340-368): returns the
new state, whether the loop keeps running, and the status message written
this iteration (F2 save reports at `(12, 20)`). -/
def notepad_step (env : FsEnv) (s : EdState) (k : KeyEvent) :
    EdState × Bool × Option Status :=
  if k.scan = SCAN_ESC then (s, false, none)
  else if k.scan = SCAN_F2 then
    (s, true,
      some ⟨12, 20, if (save_to_file env (s.buf.take s.numLines)).1
                    then .saveOk else .saveFailed⟩)
  else if k.unicode = CHAR_BACKSPACE then (edStep s .backspace, true, none)
  else if k.unicode = CHAR_CARRIAGE_RETURN then (edStep s .enter, true, none)
  else if 32 ≤ k.unicode ∧ k.unicode < 127 then
    (edStep s (.char k.unicode), true, none)
  else (s, true, none)

/-- One iteration of the editor key dispatch (lines 472-505): like the
notepad with an additional F3 reload branch (which checks no status and
shows no message); F2 save reports at `(10, 21)`. -/
def editor_step (env : FsEnv) (s : EdState) (k : KeyEvent) :
    EdState × Bool × Option Status :=
  if k.scan = SCAN_ESC then (s, false, none)
  else if k.scan = SCAN_F2 then
    (s, true,
      some ⟨10, 21, if (save_to_file env (s.buf.take s.numLines)).1
                    then .saveOk else .saveFailed⟩)
  else if k.scan = SCAN_F3 then (editorReload env s, true, none)
  else if k.unicode = CHAR_BACKSPACE then (edStep s .backspace, true, none)
  else if k.unicode = CHAR_CARRIAGE_RETURN then (edStep s .enter, true, none)
  else if 32 ≤ k.unicode ∧ k.unicode < 127 then
    (edStep s (.char k.unicode), true, none)
  else (s, true, none)

/-- Run the notepad loop over a list of key events, stopping when an
iteration clears the running flag. -/
def notepad_run (env : FsEnv) (s : EdState) : List KeyEvent → EdState
  | [] => s
  | k :: ks =>
    let r := notepad_step env s k
    if r.2.1 then notepad_run env r.1 ks else r.1

/-- A notepad session: `app_notepad` resets the cursor to `(0, 0)` on entry
(lines 323-324) but keeps the process-wide buffer and line count, then
processes key events. -/
def app_notepad (env : FsEnv) (s : EdState) (ks : List KeyEvent) : EdState :=
  notepad_run env { s with curLine := 0, curCol := 0 } ks

/-- The lines the notepad display loop shows (lines 328-333):
rows `i` with `i < 16 && i < notepad_lines`. -/
def notepad_displayed (s : EdState) : List (List Nat) :=
  s.buf.take (min 16 s.numLines)

/-! ## Helper lemmas -/

theorem set_getD_self {α : Type} (l : List α) (i : Nat) (d : α) :
    l.set i (l.getD i d) = l := by
  induction l generalizing i with
  | nil => simp
  | cons a t ih =>
    cases i with
    | zero => simp
    | succ n => simpa [List.getD] using ih n

theorem getD_set_ne {α : Type} (l : List α) (i j : Nat) (a d : α)
    (h : i ≠ j) : (l.set i a).getD j d = l.getD j d := by
  induction l generalizing i j with
  | nil => simp
  | cons b t ih =>
    cases i with
    | zero =>
      cases j with
      | zero => exact absurd rfl h
      | succ m => simp
    | succ n =>
      cases j with
      | zero => simp
      | succ m => simpa using ih n m (by omega)

theorem getD_set_self {α : Type} (l : List α) (i : Nat) (a d : α)
    (h : i < l.length) : (l.set i a).getD i d = a := by
  induction l generalizing i with
  | nil => simp at h
  | cons b t ih =>
    cases i with
    | zero => simp
    | succ n => simpa using ih n (by simpa using h)

theorem parseLines_invariant :
    ∀ (cs : List Nat) (acc : List (List Nat)) (cur : List Nat),
      acc.length ≤ MAX_LINES →
      (acc.length = MAX_LINES → cur = []) →
      (∀ l ∈ acc, l.length ≤ MAX_LINE_LENGTH - 1) →
      (∀ l ∈ acc, ∀ c ∈ l, c ≠ 13 ∧ c ≠ 10) →
      cur.length ≤ MAX_LINE_LENGTH - 1 →
      (∀ c ∈ cur, c ≠ 13 ∧ c ≠ 10) →
      (parseLines cs acc cur).length ≤ MAX_LINES ∧
      (∀ l ∈ parseLines cs acc cur, l.length ≤ MAX_LINE_LENGTH - 1) ∧
      (∀ l ∈ parseLines cs acc cur, ∀ c ∈ l, c ≠ 13 ∧ c ≠ 10) := by
  intro cs
  induction cs with
  | nil =>
    intro acc cur hacc hfull haccl haccsep hcur hcursep
    simp only [parseLines]
    by_cases h : 0 < cur.length
    · rw [if_pos h]
      have hne : acc.length ≠ MAX_LINES := fun e => by simp [hfull e] at h
      refine ⟨by simp [MAX_LINES] at *; omega, ?_, ?_⟩
      · intro l hl
        rcases List.mem_append.1 hl with h1 | h1
        · exact haccl l h1
        · rw [List.mem_singleton.1 h1]; exact hcur
      · intro l hl
        rcases List.mem_append.1 hl with h1 | h1
        · exact haccsep l h1
        · rw [List.mem_singleton.1 h1]; exact hcursep
    · rw [if_neg h]; exact ⟨hacc, haccl, haccsep⟩
  | cons c rest ih =>
    intro acc cur hacc hfull haccl haccsep hcur hcursep
    simp only [parseLines]
    by_cases hstop : MAX_LINES ≤ acc.length
    · rw [if_pos hstop]; exact ⟨hacc, haccl, haccsep⟩
    · rw [if_neg hstop]
      by_cases hsep : c = 13 ∨ c = 10
      · rw [if_pos hsep]
        by_cases hc : 0 < cur.length
        · rw [if_pos hc]
          refine ih (acc ++ [cur]) [] ?_ ?_ ?_ ?_ ?_ ?_
          · simp; omega
          · intro _; rfl
          · intro l hl
            rcases List.mem_append.1 hl with h1 | h1
            · exact haccl l h1
            · rw [List.mem_singleton.1 h1]; exact hcur
          · intro l hl
            rcases List.mem_append.1 hl with h1 | h1
            · exact haccsep l h1
            · rw [List.mem_singleton.1 h1]; exact hcursep
          · simp
          · simp
        · rw [if_neg hc]
          exact ih acc [] hacc (fun _ => rfl) haccl haccsep (by simp) (by simp)
      · rw [if_neg hsep]
        by_cases hlen : cur.length < MAX_LINE_LENGTH - 1
        · rw [if_pos hlen]
          refine ih acc (cur ++ [c]) hacc ?_ haccl haccsep ?_ ?_
          · intro e; exact absurd e.ge hstop
          · simp; omega
          · intro x hx
            rcases List.mem_append.1 hx with h1 | h1
            · exact hcursep x h1
            · rw [List.mem_singleton.1 h1]
              push_neg at hsep
              exact hsep
        · rw [if_neg hlen]
          exact ih acc cur hacc hfull haccl haccsep hcur hcursep

theorem parseLines_stop (c : Nat) (rest : List Nat) (acc : List (List Nat))
    (cur : List Nat) (h : MAX_LINES ≤ acc.length) :
    parseLines (c :: rest) acc cur = acc := by
  simp only [parseLines]
  rw [if_pos h]

theorem parseLines_sep_pos (c : Nat) (rest : List Nat) (acc : List (List Nat))
    (cur : List Nat) (h1 : acc.length < MAX_LINES) (h2 : c = 13 ∨ c = 10)
    (h3 : 0 < cur.length) :
    parseLines (c :: rest) acc cur = parseLines rest (acc ++ [cur]) [] := by
  simp only [parseLines]
  rw [if_neg (not_le.2 h1), if_pos h2, if_pos h3]

theorem parseLines_sep_zero (c : Nat) (rest : List Nat) (acc : List (List Nat))
    (cur : List Nat) (h1 : acc.length < MAX_LINES) (h2 : c = 13 ∨ c = 10)
    (h3 : ¬0 < cur.length) :
    parseLines (c :: rest) acc cur = parseLines rest acc [] := by
  simp only [parseLines]
  rw [if_neg (not_le.2 h1), if_pos h2, if_neg h3]

theorem parseLines_store (c : Nat) (rest : List Nat) (acc : List (List Nat))
    (cur : List Nat) (h1 : acc.length < MAX_LINES) (h2 : ¬(c = 13 ∨ c = 10))
    (h3 : cur.length < MAX_LINE_LENGTH - 1) :
    parseLines (c :: rest) acc cur = parseLines rest acc (cur ++ [c]) := by
  simp only [parseLines]
  rw [if_neg (not_le.2 h1), if_neg h2, if_pos h3]

theorem parseLines_chars (l : List Nat) :
    ∀ (cs : List Nat) (acc : List (List Nat)) (cur : List Nat),
      acc.length < MAX_LINES →
      cur.length + l.length ≤ MAX_LINE_LENGTH - 1 →
      (∀ c ∈ l, ¬(c = 13 ∨ c = 10)) →
      parseLines (l ++ cs) acc cur = parseLines cs acc (cur ++ l) := by
  induction l with
  | nil => intro cs acc cur _ _ _; simp
  | cons c t ih =>
    intro cs acc cur hacc hlen hsep
    have hc := hsep c (by simp)
    rw [List.cons_append,
      parseLines_store c (t ++ cs) acc cur hacc hc (by simp at hlen; omega)]
    rw [ih cs acc (cur ++ [c]) hacc (by simp at hlen ⊢; omega)
      (fun x hx => hsep x (List.mem_cons_of_mem c hx))]
    simp

theorem parseLines_of_full (cs : List Nat) (acc : List (List Nat))
    (h : MAX_LINES ≤ acc.length) : parseLines cs acc [] = acc := by
  cases cs with
  | nil => simp [parseLines]
  | cons c rest => exact parseLines_stop c rest acc [] h

theorem saveContent_append (a b : List (List Nat)) :
    saveContent (a ++ b) = saveContent a ++ saveContent b := by
  induction a with
  | nil => simp [saveContent]
  | cons g t ih => simp [saveContent] at ih ⊢; simp [ih]

theorem saveContent_length (gs : List (List Nat)) :
    (saveContent gs).length = (gs.map (fun g => g.length + 2)).sum := by
  induction gs with
  | nil => simp [saveContent]
  | cons g t ih => simp [saveContent] at ih ⊢; omega

theorem parseLines_saveContent (gs : List (List Nat)) :
    ∀ (cs : List Nat) (acc : List (List Nat)),
      acc.length + gs.length ≤ MAX_LINES →
      (∀ g ∈ gs, 0 < g.length ∧ g.length ≤ MAX_LINE_LENGTH - 1) →
      (∀ g ∈ gs, ∀ c ∈ g, ¬(c = 13 ∨ c = 10)) →
      parseLines (saveContent gs ++ cs) acc [] = parseLines cs (acc ++ gs) [] := by
  induction gs with
  | nil => intro cs acc _ _ _; simp [saveContent]
  | cons g gs' ih =>
    intro cs acc hlen hg hsep
    have hacc : acc.length < MAX_LINES := by simp at hlen; omega
    have hgmem : g ∈ g :: gs' := by simp
    rw [show saveContent (g :: gs') ++ cs =
          g ++ 13 :: 10 :: (saveContent gs' ++ cs) from by
        simp [saveContent, List.append_assoc]]
    rw [parseLines_chars g _ acc [] hacc
      (by simpa using (hg g hgmem).2) (hsep g hgmem)]
    rw [List.nil_append]
    rw [parseLines_sep_pos 13 _ acc g hacc (Or.inl rfl) (hg g hgmem).1]
    by_cases hfull : MAX_LINES ≤ (acc ++ [g]).length
    · have hnil : gs' = [] := by
        have : gs'.length = 0 := by simp at hfull hlen; omega
        exact List.length_eq_zero.1 this
      rw [parseLines_stop 10 _ _ _ hfull, hnil]
      exact (parseLines_of_full cs (acc ++ [g]) hfull).symm
    · push_neg at hfull
      rw [parseLines_sep_zero 10 _ _ [] hfull (Or.inr rfl) (by simp)]
      rw [ih cs (acc ++ [g]) (by simp at hlen ⊢; omega)
        (fun x hx => hg x (List.mem_cons_of_mem g hx))
        (fun x hx => hsep x (List.mem_cons_of_mem g hx))]
      simp

theorem runKeys_nil (s : EdState) : runKeys s [] = s := rfl

theorem runKeys_cons (s : EdState) (k : Key) (ks : List Key) :
    runKeys s (k :: ks) = runKeys (edStep s k) ks := rfl

theorem runKeys_append (s : EdState) (a b : List Key) :
    runKeys s (a ++ b) = runKeys (runKeys s a) b := by
  simp [runKeys]

theorem getD_replicate {α : Type} (n i : Nat) (d : α) :
    (List.replicate n d).getD i d = d := by
  induction n generalizing i with
  | zero => simp
  | succ m ihn =>
    cases i with
    | zero => simp [List.replicate_succ]
    | succ j => simpa [List.replicate_succ] using ihn j

theorem edStep_enter_eq (b : List (List Nat)) (n l col : Nat) (row : List Nat)
    (hrow : b.getD l [] = row)
    (hcol : col = row.length)
    (hlt : l + 1 < MAX_LINES)
    (hnum : n = l + 1) :
    edStep ⟨b, n, l, col⟩ .enter = ⟨b.set l row, l + 1 + 1, l + 1, 0⟩ := by
  simp only [edStep]
  rw [hrow, hcol, List.take_length]
  rw [if_neg (by omega : ¬l + 1 ≥ MAX_LINES)]
  rw [if_pos (by omega : l + 1 ≥ n)]

theorem runKeys_chars (g : List Nat) :
    ∀ (b : List (List Nat)) (n l col : Nat) (row : List Nat),
      b.getD l [] = row →
      l < b.length →
      l < n →
      col = row.length →
      row.length + g.length ≤ MAX_LINE_LENGTH - 1 →
      (∀ c ∈ g, 32 ≤ c ∧ c < 127) →
      runKeys ⟨b, n, l, col⟩ (g.map Key.char) =
        ⟨b.set l (row ++ g), n, l, row.length + g.length⟩ := by
  induction g with
  | nil =>
    intro b n l col row hrow h1 h2 h3 _ _
    subst hrow
    subst h3
    rw [List.map_nil, runKeys_nil, List.append_nil, set_getD_self]
    simp
  | cons a g' ih =>
    intro b n l col row hrow h1 h2 h3 h4 h5
    have ha := h5 a (by simp)
    have hcol255 : col < MAX_LINE_LENGTH - 1 := by
      simp only [List.length_cons] at h4
      omega
    have hstep : edStep ⟨b, n, l, col⟩ (.char a) =
        ⟨b.set l (row ++ [a]), n, l, col + 1⟩ := by
      simp only [edStep]
      rw [if_pos ha, if_pos hcol255, hrow, h3, List.take_length]
      rw [if_neg (by omega : ¬l ≥ n)]
    have hlen1 : col + 1 = (row ++ [a]).length := by
      rw [List.length_append, List.length_singleton]
      omega
    have hlen2 : (row ++ [a]).length + g'.length ≤ MAX_LINE_LENGTH - 1 := by
      have h4' := h4
      simp only [List.length_cons] at h4'
      rw [List.length_append, List.length_singleton]
      omega
    rw [List.map_cons, runKeys_cons, hstep]
    have ihh := ih (b.set l (row ++ [a])) n l (col + 1) (row ++ [a])
      (getD_set_self _ _ _ _ h1)
      (by rw [List.length_set]; exact h1)
      h2
      hlen1
      hlen2
      (fun c hc => h5 c (List.mem_cons_of_mem a hc))
    rw [ihh, List.set_set, List.append_assoc, List.singleton_append]
    rw [show (row ++ [a]).length + g'.length = row.length + (a :: g').length
      from by
        simp only [List.length_append, List.length_singleton, List.length_cons,
          List.length_nil]
        omega]

theorem runKeys_lines (gs : List (List Nat)) :
    ∀ (b : List (List Nat)) (l : Nat),
      gs ≠ [] →
      b.length = MAX_LINES →
      (∀ j, l ≤ j → b.getD j [] = []) →
      l + gs.length ≤ MAX_LINES →
      (∀ g ∈ gs, g.length ≤ MAX_LINE_LENGTH - 1) →
      (∀ g ∈ gs, ∀ c ∈ g, 32 ≤ c ∧ c < 127) →
      (runKeys ⟨b, l + 1, l, 0⟩ (keysOfLines gs)).numLines = l + gs.length ∧
      (∀ i, i < gs.length →
        (runKeys ⟨b, l + 1, l, 0⟩ (keysOfLines gs)).buf.getD (l + i) [] =
          gs.getD i []) ∧
      (∀ j, j < l →
        (runKeys ⟨b, l + 1, l, 0⟩ (keysOfLines gs)).buf.getD j [] =
          b.getD j []) := by
  induction gs with
  | nil => intro b l h; exact absurd rfl h
  | cons g gs' ih =>
    intro b l _ hblen hempty hbound hglen hchars
    have hgmem : g ∈ g :: gs' := by simp
    have hrow : b.getD l [] = [] := hempty _ (Nat.le_refl _)
    have hbound' : l + (gs'.length + 1) ≤ MAX_LINES := by
      simpa only [List.length_cons] using hbound
    have hltbuf : l < b.length := by rw [hblen]; omega
    have hcrun := runKeys_chars g b (l + 1) l 0 [] hrow hltbuf (by omega) rfl
      (by simp only [List.length_nil, Nat.zero_add]; exact hglen g hgmem)
      (hchars g hgmem)
    rw [List.nil_append] at hcrun
    simp only [List.length_nil, Nat.zero_add] at hcrun
    rcases gs' with _ | ⟨g2, rest⟩
    · rw [show keysOfLines [g] = g.map Key.char from rfl, hcrun]
      refine ⟨rfl, ?_, ?_⟩
      · intro i hi
        have hi0 : i = 0 := by simpa using hi
        rw [hi0, Nat.add_zero]
        exact getD_set_self _ _ _ _ hltbuf
      · intro j hj
        exact getD_set_ne _ _ _ _ _ (by omega)
    · rw [show keysOfLines (g :: g2 :: rest) =
          g.map Key.char ++ Key.enter :: keysOfLines (g2 :: rest) from rfl]
      rw [runKeys_append, hcrun, runKeys_cons]
      have henter : edStep ⟨b.set l g, l + 1, l, g.length⟩ Key.enter =
          ⟨(b.set l g).set l g, l + 1 + 1, l + 1, 0⟩ := by
        refine edStep_enter_eq _ _ _ _ g (getD_set_self _ _ _ _ hltbuf) rfl ?_ rfl
        simp only [List.length_cons] at hbound'
        omega
      rw [henter, List.set_set]
      obtain ⟨A, B, C⟩ := ih (b.set l g) (l + 1) (by simp)
        (by rw [List.length_set]; exact hblen)
        (by
          intro j hj
          rw [getD_set_ne _ _ _ _ _ (by omega : l ≠ j)]
          exact hempty j (by omega))
        (by
          simp only [List.length_cons] at hbound' ⊢
          omega)
        (fun x hx => hglen x (List.mem_cons_of_mem g hx))
        (fun x hx => hchars x (List.mem_cons_of_mem g hx))
      refine ⟨?_, ?_, ?_⟩
      · have harith : l + (g :: g2 :: rest).length = l + 1 + (g2 :: rest).length := by
          simp only [List.length_cons]
          omega
        rw [harith]
        exact A
      · intro i hi
        cases i with
        | zero =>
          have hC := C l (by omega)
          rw [getD_set_self _ _ _ _ hltbuf] at hC
          exact hC
        | succ j =>
          have hB := B j (by
            simp only [List.length_cons] at hi ⊢
            omega)
          rw [show l + (j + 1) = l + 1 + j from by omega]
          exact hB
      · intro j hj
        have hC := C j (by omega)
        rw [getD_set_ne _ _ _ _ _ (by omega : l ≠ j)] at hC
        exact hC

theorem countEnters_chars (g : List Nat) (ks : List Key) :
    countEnters (g.map Key.char ++ ks) = countEnters ks := by
  induction g with
  | nil => rfl
  | cons c t ihc => simpa [countEnters] using ihc

theorem countEnters_keysOfLines (gs : List (List Nat)) :
    gs ≠ [] → countEnters (keysOfLines gs) = gs.length - 1 := by
  induction gs with
  | nil => intro h; exact absurd rfl h
  | cons g gs' ih =>
    intro _
    rcases gs' with _ | ⟨g2, rest⟩
    · rw [show keysOfLines [g] = g.map Key.char from rfl,
        show g.map Key.char = g.map Key.char ++ [] from (List.append_nil _).symm,
        countEnters_chars]
      rfl
    · rw [show keysOfLines (g :: g2 :: rest) =
          g.map Key.char ++ Key.enter :: keysOfLines (g2 :: rest) from rfl,
        countEnters_chars,
        show countEnters (Key.enter :: keysOfLines (g2 :: rest)) =
          countEnters (keysOfLines (g2 :: rest)) + 1 from rfl,
        ih (by simp)]
      simp only [List.length_cons]
      omega

/-! ## Claim theorems -/

/-- C6: left-to-right evaluation of `"5+3*2"`. -/
theorem evaluate_no_precedence :
    evaluate_expression [53, 43, 51, 42, 50] = 16 := by decide

/-- C2 counterexample: `evaluate_expression "8/0+1"` is not 1. -/
theorem evaluate_div_zero_not_one :
    evaluate_expression [56, 47, 48, 43, 49] ≠ 1 := by decide

/-- C2 amended: `evaluate_expression "8/0+1"` returns 9: the division by a
zero operand is a skipped no-op, so the running result stays 8 and the final
`+1` yields 9; no crash and no error. -/
theorem evaluate_div_zero_skipped :
    evaluate_expression [56, 47, 48, 43, 49] = 9 := by decide

/-- C9: the notepad buffer is process-wide and persists across menu visits:
typing `"hi"`, Enter, `"bye"`, F2, Escape, then relaunching the notepad
leaves a buffer of exactly the two lines `"hi"` and `"bye"`, both shown by
the display loop. -/
theorem notepad_buffer_persists :
    (app_notepad (fsOk []) (app_notepad (fsOk []) freshState
        [⟨0, 104⟩, ⟨0, 105⟩, ⟨0, 13⟩, ⟨0, 98⟩, ⟨0, 121⟩, ⟨0, 101⟩,
         ⟨12, 0⟩, ⟨23, 0⟩]) []).numLines = 2 ∧
    (app_notepad (fsOk []) (app_notepad (fsOk []) freshState
        [⟨0, 104⟩, ⟨0, 105⟩, ⟨0, 13⟩, ⟨0, 98⟩, ⟨0, 121⟩, ⟨0, 101⟩,
         ⟨12, 0⟩, ⟨23, 0⟩]) []).buf.getD 0 [] = [104, 105] ∧
    (app_notepad (fsOk []) (app_notepad (fsOk []) freshState
        [⟨0, 104⟩, ⟨0, 105⟩, ⟨0, 13⟩, ⟨0, 98⟩, ⟨0, 121⟩, ⟨0, 101⟩,
         ⟨12, 0⟩, ⟨23, 0⟩]) []).buf.getD 1 [] = [98, 121, 101] ∧
    notepad_displayed (app_notepad (fsOk []) (app_notepad (fsOk []) freshState
        [⟨0, 104⟩, ⟨0, 105⟩, ⟨0, 13⟩, ⟨0, 98⟩, ⟨0, 121⟩, ⟨0, 101⟩,
         ⟨12, 0⟩, ⟨23, 0⟩]) []) = [[104, 105], [98, 121, 101]] := by
  decide

/-- C10: whenever `load_from_file` returns an error status it has already
set the caller's line count to 0, and consequently a failed F3 reload in the
editor leaves the buffer rows untouched but the line count at 0 and the
cursor at `(0, 0)`. -/
theorem load_error_zeroes_count (env : FsEnv) (s : EdState)
    (h : (load_from_file env).1 = false) :
    (load_from_file env).2.2 = 0 ∧
    editorReload env s = { s with numLines := 0, curLine := 0, curCol := 0 } := by
  rcases env with ⟨l, hp, v, o, a, r, c⟩
  cases l <;> cases hp <;> cases v <;> cases o <;> cases a <;> cases r <;>
    simp_all [load_from_file, editorReload]

/-- Witness for C10 at a concrete failing environment and state. -/
theorem load_error_zeroes_count_witness :
    (load_from_file ⟨false, true, true, true, true, true, []⟩).2.2 = 0 ∧
    editorReload ⟨false, true, true, true, true, true, []⟩ freshState =
      { freshState with numLines := 0, curLine := 0, curCol := 0 } :=
  load_error_zeroes_count ⟨false, true, true, true, true, true, []⟩ freshState
    (by decide)

/-- C4 counterexample: an Enter press at line index 99 is not always a pure
no-op on the buffer contents and the line count: with the cursor at
`(99, 0)` and row 99 holding `"a"`, Enter truncates row 99; and with a line
count of 50 and the cursor at line 99, Enter grows the line count to 100. -/
theorem capacity_enter_not_noop :
    (edStep ⟨(List.replicate MAX_LINES []).set 99 [97], MAX_LINES, 99, 0⟩
        Key.enter).buf ≠ (List.replicate MAX_LINES []).set 99 [97] ∧
    (edStep ⟨List.replicate MAX_LINES [], 50, 99, 0⟩ Key.enter).numLines ≠ 50 := by
  decide

/-- C4 amended: a printable character typed at column 255 changes neither
the buffer nor the cursor.  An Enter press at line index 99 is not dropped:
it truncates line 99 at the cursor column, keeps the line index at 99,
resets the column to 0, and sets the line count to 100 if it was lower,
leaving it unchanged otherwise; in particular when the cursor column equals
line 99's length and the line count is already 100 (the situation reached by
typing from a fresh buffer) the buffer contents and line count are
unchanged.  No error is surfaced in either case. -/
theorem capacity_bounds_behavior :
    (∀ (s : EdState) (c : Nat), 32 ≤ c → c < 127 →
      s.curCol = MAX_LINE_LENGTH - 1 → edStep s (.char c) = s) ∧
    (∀ s : EdState, s.curLine = MAX_LINES - 1 →
      edStep s .enter =
        ⟨s.buf.set (MAX_LINES - 1)
            ((s.buf.getD (MAX_LINES - 1) []).take s.curCol),
          if s.numLines ≤ MAX_LINES - 1 then MAX_LINES else s.numLines,
          MAX_LINES - 1, 0⟩) ∧
    (∀ s : EdState, s.curLine = MAX_LINES - 1 →
      s.curCol = (s.buf.getD s.curLine []).length → s.numLines = MAX_LINES →
      (edStep s .enter).buf = s.buf ∧ (edStep s .enter).numLines = MAX_LINES ∧
      (edStep s .enter).curLine = MAX_LINES - 1 ∧ (edStep s .enter).curCol = 0) := by
  refine ⟨?_, ?_, ?_⟩
  · intro s c h1 h2 h3
    simp only [edStep, h3]
    rw [if_pos ⟨h1, h2⟩, if_neg (lt_irrefl _)]
  · intro s h1
    simp only [edStep, h1]
    rw [if_pos (show MAX_LINES - 1 + 1 ≥ MAX_LINES by decide)]
    simp only [ge_iff_le]
    rw [show MAX_LINES - 1 + 1 = MAX_LINES from rfl]
  · intro s h1 h2 h3
    have hbuf : (edStep s .enter).buf = s.buf := by
      simp only [edStep]
      rw [h2, List.take_length, set_getD_self]
    refine ⟨hbuf, ?_, ?_, rfl⟩
    · simp only [edStep, h1, h3, MAX_LINES]
      norm_num
    · simp only [edStep, h1, MAX_LINES]
      norm_num

/-- Witness for C4 amended at concrete states: the dropped character at
column 255, the general Enter equation at line 99 (here with the count
growing from 50 to 100 and row 99 truncated at column 0), and the boundary
no-op case. -/
theorem capacity_bounds_behavior_witness :
    edStep ⟨List.replicate MAX_LINES [], 1, 0, 255⟩ (.char 97) =
      ⟨List.replicate MAX_LINES [], 1, 0, 255⟩ ∧
    edStep ⟨(List.replicate MAX_LINES []).set 99 [97], 50, 99, 0⟩ .enter =
      ⟨((List.replicate MAX_LINES []).set 99 [97]).set (MAX_LINES - 1)
          ((((List.replicate MAX_LINES []).set 99 [97]).getD
            (MAX_LINES - 1) []).take 0),
        if 50 ≤ MAX_LINES - 1 then MAX_LINES else 50, MAX_LINES - 1, 0⟩ ∧
    (edStep ⟨List.replicate MAX_LINES [], MAX_LINES, 99, 0⟩ .enter).buf =
      List.replicate MAX_LINES [] ∧
    (edStep ⟨List.replicate MAX_LINES [], MAX_LINES, 99, 0⟩ .enter).numLines =
      MAX_LINES :=
  ⟨capacity_bounds_behavior.1 ⟨List.replicate MAX_LINES [], 1, 0, 255⟩ 97
      (by decide) (by decide) (by decide),
   capacity_bounds_behavior.2.1
      ⟨(List.replicate MAX_LINES []).set 99 [97], 50, 99, 0⟩ (by decide),
   (capacity_bounds_behavior.2.2 ⟨List.replicate MAX_LINES [], MAX_LINES, 99, 0⟩
      (by decide) (by decide) (by decide)).1,
   (capacity_bounds_behavior.2.2 ⟨List.replicate MAX_LINES [], MAX_LINES, 99, 0⟩
      (by decide) (by decide) (by decide)).2.1⟩

/-- C8: Backspace at column 0 leaves the state unchanged, and Backspace
never joins lines: it never changes the cursor's line index, the line count,
or any row other than the current one. -/
theorem backspace_no_join :
    (∀ s : EdState, s.curCol = 0 → edStep s .backspace = s) ∧
    (∀ s : EdState, (edStep s .backspace).curLine = s.curLine ∧
      (edStep s .backspace).numLines = s.numLines ∧
      ∀ j, j ≠ s.curLine →
        (edStep s .backspace).buf.getD j [] = s.buf.getD j []) := by
  constructor
  · intro s h
    simp [edStep, h]
  · intro s
    by_cases h : 0 < s.curCol
    · refine ⟨by simp [edStep, h], by simp [edStep, h], fun j hj => ?_⟩
      simp only [edStep, if_pos h]
      exact getD_set_ne _ _ _ _ _ (Ne.symm hj)
    · exact ⟨by simp [edStep, h], by simp [edStep, h], fun j hj => by simp [edStep, h]⟩

/-- Witness for C8 at a concrete state. -/
theorem backspace_no_join_witness :
    edStep ⟨List.replicate MAX_LINES [], 1, 0, 0⟩ .backspace =
      ⟨List.replicate MAX_LINES [], 1, 0, 0⟩ ∧
    (edStep ⟨List.replicate MAX_LINES [], 2, 1, 0⟩ .backspace).buf.getD 0 [] =
      (⟨List.replicate MAX_LINES [], 2, 1, 0⟩ : EdState).buf.getD 0 [] :=
  ⟨backspace_no_join.1 ⟨List.replicate MAX_LINES [], 1, 0, 0⟩ rfl,
   (backspace_no_join.2 ⟨List.replicate MAX_LINES [], 2, 1, 0⟩).2.2 0 (by decide)⟩

/-- C5 counterexample: a failed F3 reload in the editor displays no status
message at all (the F3 branch never checks the load status), though the
editor does keep running. -/
theorem reload_failure_no_message :
    (editor_step ⟨false, true, true, true, true, true, []⟩ freshState
      ⟨13, 0⟩).2.2 = none ∧
    (editor_step ⟨false, true, true, true, true, true, []⟩ freshState
      ⟨13, 0⟩).2.1 = true := by
  decide

/-- C5 amended: a failed F2 save is surfaced as a single-line status message
at a fixed screen location (`(12, 20)` in the notepad, `(10, 21)` in the
editor) and is non-fatal; a failed F3 reload in the editor is also non-fatal
and keeps the application running, but displays no status message. -/
theorem persistence_failure_handling (env : FsEnv) (s : EdState)
    (h : env.locate_ok = false ∨ env.handle_ok = false ∨
         env.volume_ok = false ∨ env.open_ok = false) :
    notepad_step env s ⟨SCAN_F2, 0⟩ = (s, true, some ⟨12, 20, .saveFailed⟩) ∧
    editor_step env s ⟨SCAN_F2, 0⟩ = (s, true, some ⟨10, 21, .saveFailed⟩) ∧
    (editor_step env s ⟨SCAN_F3, 0⟩).2.1 = true ∧
    (editor_step env s ⟨SCAN_F3, 0⟩).2.2 = none := by
  have hsave : ∀ ls, (save_to_file env ls).1 = false := by
    intro ls
    rcases env with ⟨l, hp, v, o, a, r, c⟩
    rcases h with h | h | h | h <;> simp_all [save_to_file]
  refine ⟨?_, ?_, ?_, ?_⟩ <;>
    simp [notepad_step, editor_step, SCAN_ESC, SCAN_F2, SCAN_F3, hsave]

/-- Witness for C5 amended at a concrete failing environment. -/
theorem persistence_failure_handling_witness :
    notepad_step ⟨false, true, true, true, true, true, []⟩ freshState
      ⟨SCAN_F2, 0⟩ = (freshState, true, some ⟨12, 20, .saveFailed⟩) ∧
    (editor_step ⟨false, true, true, true, true, true, []⟩ freshState
      ⟨SCAN_F3, 0⟩).2.2 = none :=
  ⟨(persistence_failure_handling ⟨false, true, true, true, true, true, []⟩
      freshState (Or.inl rfl)).1,
   (persistence_failure_handling ⟨false, true, true, true, true, true, []⟩
      freshState (Or.inl rfl)).2.2.2⟩

/-- C7: `load_from_file` reads at most 8 KiB (its result depends only on the
first 4096 `CHAR16` units of the file), stores at most 100 lines, truncates
every stored line at 255 characters, and (having split on CR/LF) stores
lines free of CR and LF characters. -/
theorem load_from_file_bounded (cs : List Nat) :
    load_from_file_content cs = load_from_file_content (cs.take 4096) ∧
    (load_from_file_content cs).length ≤ MAX_LINES ∧
    (∀ l ∈ load_from_file_content cs, l.length ≤ MAX_LINE_LENGTH - 1) ∧
    (∀ l ∈ load_from_file_content cs, ∀ c ∈ l, c ≠ 13 ∧ c ≠ 10) := by
  have h := parseLines_invariant (cs.take 4096) [] [] (by simp [MAX_LINES])
    (by intro e; simp [MAX_LINES] at e) (by simp) (by simp) (by simp) (by simp)
  exact ⟨by simp [load_from_file_content, List.take_take], h.1, h.2.1, h.2.2⟩

/-- Witness for C7 at a concrete file content. -/
theorem load_from_file_bounded_witness :
    (load_from_file_content [97, 13, 98]).length ≤ MAX_LINES ∧
    ([97] : List Nat).length ≤ MAX_LINE_LENGTH - 1 :=
  ⟨(load_from_file_bounded [97, 13, 98]).2.1,
   (load_from_file_bounded [97, 13, 98]).2.2.1 [97] (by decide)⟩

/-- C3 counterexample: save-then-load does not reproduce every list of 1 to
100 non-empty lines of length 1..255.  A line containing a CR character is
split away entirely, and a buffer whose saved size exceeds the 8 KiB load
cap (here 17 lines of 255 characters, 4369 `CHAR16` units > 4096) comes back
truncated. -/
theorem save_load_not_round_trip :
    load_from_file_content (saveContent [[13]]) ≠ [[13]] ∧
    (load_from_file_content
        (saveContent (List.replicate 17 (List.replicate 255 97)))).length ≠ 17 := by
  constructor
  · decide
  · have hlen15 :
        (saveContent (List.replicate 15 (List.replicate 255 (97 : Nat)))).length =
          3855 := by
      rw [saveContent_length, List.map_replicate, List.length_replicate,
        List.sum_replicate, smul_eq_mul]
    have hsc_app :
        saveContent (List.replicate 17 (List.replicate 255 (97 : Nat))) =
          saveContent (List.replicate 15 (List.replicate 255 97)) ++
          saveContent (List.replicate 2 (List.replicate 255 97)) := by
      rw [← saveContent_append, ← List.replicate_add]
    have htail :
        saveContent (List.replicate 2 (List.replicate 255 (97 : Nat))) =
          List.replicate 255 97 ++
            (13 :: 10 :: (List.replicate 255 97 ++ [13, 10])) := rfl
    have htake :
        (saveContent (List.replicate 17 (List.replicate 255 (97 : Nat)))).take 4096 =
          saveContent (List.replicate 15 (List.replicate 255 97)) ++
          List.replicate 241 97 := by
      rw [hsc_app,
        show (4096 : Nat) =
          (saveContent (List.replicate 15 (List.replicate 255 (97 : Nat)))).length +
            241 from by rw [hlen15],
        List.take_append 241]
      rw [htail, List.take_append_of_le_length
        (by rw [List.length_replicate]; omega), List.take_replicate]
      rw [show min 241 255 = 241 from by omega]
    have hparse :
        parseLines (saveContent (List.replicate 15 (List.replicate 255 (97 : Nat))) ++
            List.replicate 241 97) [] [] =
          parseLines (List.replicate 241 97)
            ([] ++ List.replicate 15 (List.replicate 255 97)) [] := by
      refine parseLines_saveContent _ _ []
        (by rw [List.length_replicate]; decide) ?_ ?_
      · intro g hg
        rw [List.eq_of_mem_replicate hg, List.length_replicate]
        decide
      · intro g hg c hc
        rw [List.eq_of_mem_replicate hg] at hc
        rw [List.eq_of_mem_replicate hc]
        decide
    have hchars :
        parseLines (List.replicate 241 (97 : Nat))
            (List.replicate 15 (List.replicate 255 97)) [] =
          List.replicate 15 (List.replicate 255 97) ++ [List.replicate 241 97] := by
      have h := parseLines_chars (List.replicate 241 (97 : Nat)) []
        (List.replicate 15 (List.replicate 255 97)) []
        (by rw [List.length_replicate]; decide)
        (by rw [List.length_replicate]; decide)
        (fun c hc => by rw [List.eq_of_mem_replicate hc]; decide)
      rw [List.append_nil] at h
      rw [List.nil_append] at h
      rw [h]
      simp only [parseLines]
      rw [List.length_replicate, if_pos (show (0 : Nat) < 241 by decide)]
    have hfinal :
        load_from_file_content
            (saveContent (List.replicate 17 (List.replicate 255 (97 : Nat)))) =
          List.replicate 15 (List.replicate 255 97) ++ [List.replicate 241 97] := by
      unfold load_from_file_content
      rw [htake, hparse, List.nil_append, hchars]
    rw [hfinal, List.length_append, List.length_replicate]
    decide

/-- C3 amended: for every list of 1 to 100 lines, each non-empty of length
at most 255 and containing no CR or LF character (buffer rows never contain
NUL or, as typed, CR/LF), whose saved content fits in the 8 KiB that
`load_from_file` reads (at most 4096 `CHAR16` units including the CR LF
terminators), saving with `save_to_file` and loading the written content
back with `load_from_file` reproduces exactly the original lines and line
count. -/
theorem save_load_round_trip (gs : List (List Nat))
    (h0 : gs.length ≤ MAX_LINES)
    (h1 : ∀ g ∈ gs, 0 < g.length ∧ g.length ≤ MAX_LINE_LENGTH - 1)
    (h2 : ∀ g ∈ gs, ∀ c ∈ g, c ≠ 13 ∧ c ≠ 10)
    (h3 : (saveContent gs).length ≤ 4096) :
    load_from_file (fsOk (save_to_file (fsOk []) gs).2) = (true, gs, gs.length) := by
  have hcontent : (save_to_file (fsOk []) gs).2 = saveContent gs := rfl
  have hload : load_from_file_content (saveContent gs) = gs := by
    unfold load_from_file_content
    rw [List.take_of_length_le h3]
    simpa [parseLines] using parseLines_saveContent gs [] [] (by simpa using h0) h1
      (fun g hg c hc => by have := h2 g hg c hc; tauto)
  rw [hcontent]
  simp [load_from_file, fsOk, hload]

/-- Witness for C3 at a concrete two-line buffer. -/
theorem save_load_round_trip_witness :
    load_from_file (fsOk (save_to_file (fsOk []) [[104, 105], [98, 121, 101]]).2) =
      (true, [[104, 105], [98, 121, 101]], 2) :=
  save_load_round_trip [[104, 105], [98, 121, 101]]
    (by decide) (by decide) (by decide) (by decide)

/-- C1: starting from the fresh one-line buffer with the cursor at `(0, 0)`,
processing groups of printable characters (codes 32..126, at most 255 per
line) separated by Enter presses (fewer than 100 lines total) yields a line
count equal to the number of Enter presses plus one, and each completed
line's content is exactly the characters typed before its terminating
Enter. -/
theorem typed_lines_recorded (gs : List (List Nat)) (h0 : gs ≠ [])
    (h1 : gs.length ≤ MAX_LINES - 1)
    (h2 : ∀ g ∈ gs, g.length ≤ MAX_LINE_LENGTH - 1)
    (h3 : ∀ g ∈ gs, ∀ c ∈ g, 32 ≤ c ∧ c < 127) :
    (runKeys freshState (keysOfLines gs)).numLines =
      countEnters (keysOfLines gs) + 1 ∧
    ∀ i, i + 1 < gs.length →
      (runKeys freshState (keysOfLines gs)).buf.getD i [] = gs.getD i [] := by
  have hmain := runKeys_lines gs (List.replicate MAX_LINES []) 0 h0
    (by rw [List.length_replicate])
    (fun j _ => getD_replicate _ _ _)
    (by simp only [Nat.zero_add]; simp only [MAX_LINES] at h1 ⊢; omega)
    h2 h3
  have A : (runKeys freshState (keysOfLines gs)).numLines = 0 + gs.length :=
    hmain.1
  have B : ∀ i, i < gs.length →
      (runKeys freshState (keysOfLines gs)).buf.getD (0 + i) [] =
        gs.getD i [] :=
    hmain.2.1
  have hpos : 0 < gs.length := List.length_pos.2 h0
  constructor
  · rw [countEnters_keysOfLines gs h0, A]
    omega
  · intro i hi
    have hB := B i (by omega)
    rw [Nat.zero_add] at hB
    exact hB

/-- Witness for C1 at the concrete two-line input typing `"hi"`, Enter,
`"bye"`. -/
theorem typed_lines_recorded_witness :
    (runKeys freshState (keysOfLines [[104, 105], [98, 121, 101]])).numLines =
      countEnters (keysOfLines [[104, 105], [98, 121, 101]]) + 1 ∧
    (runKeys freshState
        (keysOfLines [[104, 105], [98, 121, 101]])).buf.getD 0 [] =
      [104, 105] :=
  ⟨(typed_lines_recorded [[104, 105], [98, 121, 101]]
      (by decide) (by decide) (by decide) (by decide)).1,
   (typed_lines_recorded [[104, 105], [98, 121, 101]]
      (by decide) (by decide) (by decide) (by decide)).2 0 (by decide)⟩

end AsciiOS
